import Mathlib

/-!
Verification of the scaproust socket engine (shallow embedding).

The definitions below are translated from the Rust sources:
* `src/global.rs`        : socket types, peers, compatibility, error helpers
* `src/event_loop_msg.rs`: notification and signal enums
* `src/pipe.rs`          : the pipe state machine (handshake, framed recv)
* `src/socket_impl.rs`   : connect/bind replies, error backoff, cancel timers
* `src/protocol/pbu.rs`  : the Pub protocol policy

Machine integers (`u16`, `u64`, `usize`) are modelled as `Nat` with explicit
`% 256` / bound hypotheses where overflow matters.  Fallible Rust functions
returning `io::Result` are modelled with `Except IoError`.  Effects on the
event loop (notifications, timers, transport calls) are modelled as explicit
action traces returned by the embedded functions.
-/

/-- Kinds of `std::io::Error` used by the sources (`io::ErrorKind`). -/
inductive IoErrorKind where
  | wouldBlock
  | invalidData
  | invalidInput
  | timedOut
  | other
  deriving DecidableEq, Repr

/-- An `std::io::Error`: a kind plus the static message the sources attach. -/
structure IoError where
  kind : IoErrorKind
  msg : String
  deriving DecidableEq, Repr

/-- Source `global::other_io_error` (src/global.rs:185). -/
def other_io_error (m : String) : IoError := ⟨IoErrorKind.other, m⟩

/-- Source `global::invalid_data_io_error` (src/global.rs:189). -/
def invalid_data_io_error (m : String) : IoError := ⟨IoErrorKind.invalidData, m⟩

/-- Source `global::would_block_io_error` (src/global.rs:193). -/
def would_block_io_error (m : String) : IoError := ⟨IoErrorKind.wouldBlock, m⟩

/-- Source `SocketType` (src/global.rs:17-116): the ten SP socket types. -/
inductive SocketType where
  | pair
  | pub_
  | sub
  | req
  | rep
  | push
  | pull
  | surveyor
  | respondent
  | bus
  deriving DecidableEq, Repr, Fintype

/-- Source `SocketType::id` (src/global.rs:119): the 16-bit protocol id, values
taken from the discriminants declared in src/global.rs:35-115. -/
def SocketType.id : SocketType → Nat
  | .pair => 16
  | .pub_ => 2 * 16
  | .sub => 2 * 16 + 1
  | .req => 3 * 16
  | .rep => 3 * 16 + 1
  | .push => 5 * 16
  | .pull => 5 * 16 + 1
  | .surveyor => 6 * 16 + 2
  | .respondent => 6 * 16 + 3
  | .bus => 7 * 16

/-- Source `SocketType::peer` (src/global.rs:123-136). -/
def SocketType.peer : SocketType → SocketType
  | .pair => .pair
  | .pub_ => .sub
  | .sub => .pub_
  | .req => .rep
  | .rep => .req
  | .push => .pull
  | .pull => .push
  | .surveyor => .respondent
  | .respondent => .surveyor
  | .bus => .bus

/-- Source `SocketType::matches` (src/global.rs:138-140):
`self.peer() == other && other.peer() == *self`. -/
def SocketType.matches (s other : SocketType) : Bool :=
  (s.peer = other) && (other.peer = s)

/-- Source `SocketNotify` (src/event_loop_msg.rs:160-171): replies sent by the
backend socket to the facade.  Note that `Connected` and `Bound` carry no
payload in the source enum. -/
inductive SocketNotify where
  | connected
  | notConnected (e : IoError)
  | bound
  | notBound (e : IoError)
  | msgSent
  | msgNotSent (e : IoError)
  | msgRecv (m : List Nat)
  | msgNotRecv (e : IoError)
  | optionSet
  | optionNotSet (e : IoError)
  deriving DecidableEq, Repr

/-- Source `PipeEvtSignal` (src/event_loop_msg.rs:126-130): events raised by pipes. -/
inductive PipeEvtSignal where
  | opened
  | msgRcv (m : List Nat)
  | msgSnd
  deriving DecidableEq, Repr

/-- Big-endian encoding of a `u16`, as produced by
`WriteBytesExt::write_u16::<BigEndian>`: high byte then low byte. -/
def writeU16BE (n : Nat) : List Nat := [n / 256 % 256, n % 256]

/-- The 8-byte SP handshake frame built by `HandshakeTx::write_handshake`
(src/pipe.rs:194-204): `vec!(0, 83, 80, 0)` then the protocol id and a
zero `u16`, both big-endian.  `HandshakeRx::check_received_handshake`
(src/pipe.rs:278-290) builds the expected frame the same way from the peer
protocol id. -/
def handshakeFrame (protocolId : Nat) : List Nat :=
  [0, 83, 80, 0] ++ writeU16BE protocolId ++ writeU16BE 0

/-- Source `HandshakeTx::check_sent_handshake` (src/pipe.rs:206-212): `Some(8)`
is a success, any other `Some` count and `None` are would-block errors. -/
def check_sent_handshake (written : Option Nat) : Except IoError Unit :=
  match written with
  | some n =>
    if n = 8 then .ok ()
    else .error (would_block_io_error "failed to send full handshake")
  | none => .error (would_block_io_error "failed to send handshake")

/-- Source `HandshakeRx::check_received_handshake` (src/pipe.rs:278-290): zip the
received buffer with the expected frame (built from the peer protocol id)
and require all pairs equal. -/
def check_received_handshake (protocolPeerId : Nat) (handshake : List Nat) :
    Except IoError Unit :=
  if (handshake.zip (handshakeFrame protocolPeerId)).all (fun p => p.1 == p.2) then
    .ok ()
  else
    .error (invalid_data_io_error "received bad handshake")

/-- The fields shared by the `Initial`, `HandshakeTx` and `HandshakeRx`
states of src/pipe.rs (token, protocol id, protocol peer id); the owned
connection is modelled separately as explicit transport inputs. -/
structure PipeData where
  token : Nat
  protocolId : Nat
  protocolPeerId : Nat
  deriving DecidableEq, Repr

/-- The pipe states of src/pipe.rs (`Initial`, `HandshakeTx`, `HandshakeRx`,
`Idle`, `Dead`).  `Idle` (src/pipe.rs:311-314) keeps only the token and the
connection: it stores no receive operation. -/
inductive PipeState where
  | initial (d : PipeData)
  | handshakeTx (d : PipeData)
  | handshakeRx (d : PipeData)
  | idle (token : Nat)
  | dead
  deriving DecidableEq, Repr

/-- A call made on the transport connection, recorded for the traces. -/
inductive TransportCall where
  | tryWrite (bytes : List Nat)
  | tryRead8
  deriving DecidableEq, Repr

/-- Source `HandshakeTx::ready` (src/pipe.rs:224-234) together with
`HandshakeTx::write_handshake` (src/pipe.rs:194-204).  On a writable event
the handshake frame is passed to `Connection::try_write` (whose outcome is
the input `writeRes`), the result is checked with `check_sent_handshake`,
and on success the pipe re-registers for readable (`regReadRes`) and moves
to `HandshakeRx`; any failure runs `on_error`, which yields `Dead`.  On a
non-writable event the pipe re-registers for writable (`regWriteRes`) and
keeps its state.  Returns the new state, the transport calls made, and the
event-loop signals emitted. -/
def handshakeTxReady (d : PipeData) (writable : Bool)
    (writeRes : Except IoError (Option Nat)) (regReadRes regWriteRes : Except IoError Unit) :
    PipeState × List TransportCall × List (Nat × PipeEvtSignal) :=
  if writable then
    match writeRes with
    | .error _ => (.dead, [.tryWrite (handshakeFrame d.protocolId)], [])
    | .ok w =>
      match check_sent_handshake w with
      | .error _ => (.dead, [.tryWrite (handshakeFrame d.protocolId)], [])
      | .ok _ =>
        match regReadRes with
        | .ok _ => (.handshakeRx d, [.tryWrite (handshakeFrame d.protocolId)], [])
        | .error _ => (.dead, [.tryWrite (handshakeFrame d.protocolId)], [])
  else
    match regWriteRes with
    | .ok _ => (.handshakeTx d, [], [])
    | .error _ => (.dead, [], [])

/-- The 8-byte stack buffer of `HandshakeRx::read_handshake`
(src/pipe.rs:269-276) after `try_read` delivered `delivered`: the buffer
starts zeroed and the delivered bytes overwrite its front.  The source
ignores the read count, so a short read leaves trailing zeros. -/
def handshakeReadBuffer (delivered : List Nat) : List Nat :=
  delivered.take 8 ++ List.replicate (8 - delivered.length) 0

/-- Source `HandshakeRx::read_handshake` (src/pipe.rs:269-276): propagate a
transport error, otherwise check the (possibly short) buffer against the
expected peer frame. -/
def read_handshake (d : PipeData) (readRes : Except IoError (List Nat)) :
    Except IoError Unit :=
  match readRes with
  | .error e => .error e
  | .ok delivered => check_received_handshake d.protocolPeerId (handshakeReadBuffer delivered)

/-- Source `HandshakeRx::ready` (src/pipe.rs:293-309).  On a readable event the
pipe reads the handshake, on success registers for no events
(`regNoneRes`) and moves to `Idle`; any failure yields `Dead`.  On a
non-readable event it re-registers for readable (`regReadRes`).  No
event-loop signal is ever emitted by this state. -/
def handshakeRxReady (d : PipeData) (readable : Bool)
    (readRes : Except IoError (List Nat)) (regNoneRes regReadRes : Except IoError Unit) :
    PipeState × List TransportCall × List (Nat × PipeEvtSignal) :=
  if readable then
    match read_handshake d readRes with
    | .ok _ =>
      match regNoneRes with
      | .ok _ => (.idle d.token, [.tryRead8], [])
      | .error _ => (.dead, [.tryRead8], [])
    | .error _ => (.dead, [.tryRead8], [])
  else
    match regReadRes with
    | .ok _ => (.handshakeRx d, [], [])
    | .error _ => (.dead, [], [])

/-- Source `RecvOperationStep` (src/pipe.rs:389-394).  The source names the first
step `Prefix`; it is renamed `sizePfx` here because `Prefix`
is not usable as a plain Lean identifier. -/
inductive RecvOperationStep where
  | sizePfx
  | payload
  | done
  deriving DecidableEq, Repr

/-- Source `RecvOperationStep::next` (src/pipe.rs:396-404). -/
def RecvOperationStep.next : RecvOperationStep → RecvOperationStep
  | .sizePfx => .payload
  | .payload => .done
  | .done => .done

/-- One behaviour of `Connection::try_read` for a single call: return
`Ok(None)` (`block`), deliver up to `k` bytes (`give k`), or fail. -/
inductive ReadStep where
  | block
  | give (k : Nat)
  | fail (e : IoError)
  deriving DecidableEq, Repr

/-- The byte-stream connection as seen by the recv path: the bytes the
transport still holds, plus a schedule giving the behaviour of each
successive `try_read` call (the partitioning of the stream into partial
reads).  An exhausted schedule behaves like `block`. -/
structure Conn where
  data : List Nat
  sched : List ReadStep
  deriving DecidableEq, Repr

/-- One `Connection::try_read` call with a destination buffer of length
`buflen`: delivers at most `buflen` bytes and at most what the stream
holds, as directed by the head of the schedule. -/
def Conn.tryRead (c : Conn) (buflen : Nat) : Except IoError (List Nat) × Conn :=
  match c.sched with
  | [] => (.ok [], ⟨c.data, []⟩)
  | .block :: rest => (.ok [], ⟨c.data, rest⟩)
  | .fail e :: rest => (.error e, ⟨c.data, rest⟩)
  | .give k :: rest =>
    let n := min k (min buflen c.data.length)
    (.ok (c.data.take n), ⟨c.data.drop n, rest⟩)

/-- Source `RecvOperation::recv_buffer` (src/pipe.rs:466-477): call `try_read`
only when the destination slice is non-empty; `Ok(None)` counts as zero
bytes.  Returns the delivered bytes and the advanced connection. -/
def recv_buffer (c : Conn) (buflen : Nat) : Except IoError (List Nat) × Conn :=
  if 0 < buflen then c.tryRead buflen else (.ok [], c)

/-- Writing `src` into `dst` starting at index `i`, as `try_read` does when
handed the slice `&mut dst[i..]` (the delivered bytes overwrite the slice
front). -/
def overwriteAt (dst : List Nat) (i : Nat) (src : List Nat) : List Nat :=
  dst.take i ++ src ++ dst.drop (i + src.length)

/-- Source `RecvOperation` (src/pipe.rs:406-412).  The source field `prefix` is
renamed `pfx` because `prefix` is not usable as a plain Lean identifier. -/
structure RecvOperation where
  step : RecvOperationStep
  read : Nat
  pfx : List Nat
  msg_len : Nat
  buffer : Option (List Nat)
  deriving DecidableEq, Repr

/-- Source `RecvOperation::new` (src/pipe.rs:416-424). -/
def RecvOperation.new : RecvOperation :=
  ⟨.sizePfx, 0, List.replicate 8 0, 0, none⟩

/-- Big-endian `u64` decoding (`ReadBytesExt::read_u64::<BigEndian>`, used
at src/pipe.rs:440). -/
def beU64 (bytes : List Nat) : Nat :=
  bytes.foldl (fun a b => a * 256 + b) 0

/-- Big-endian `u64` encoding of a message length: the 8-byte prefix the
wire format puts in front of each payload. -/
def beBytes64 (n : Nat) : List Nat :=
  [n / 256 ^ 7 % 256, n / 256 ^ 6 % 256, n / 256 ^ 5 % 256, n / 256 ^ 4 % 256,
   n / 256 ^ 3 % 256, n / 256 ^ 2 % 256, n / 256 % 256, n % 256]

/-- The `Payload` stage of `RecvOperation::recv` (src/pipe.rs:447-461): the
buffer is taken out of the operation, `recv_buffer` fills `buffer[read..]`,
and the message completes exactly when `read` reaches `msg_len`.  On a
transport error the taken buffer is lost (the source early-returns after
`self.buffer.take()`). -/
def recvPayloadStep (op : RecvOperation) (c : Conn) :
    Except IoError (Option (List Nat)) × RecvOperation × Conn :=
  let buffer := op.buffer.getD []
  match recv_buffer c (buffer.length - op.read) with
  | (.error e, c1) => (.error e, { op with buffer := none }, c1)
  | (.ok dl, c1) =>
    let buffer1 := overwriteAt buffer op.read dl
    let read1 := op.read + dl.length
    if read1 = op.msg_len then
      (.ok (some buffer1), ⟨.done, 0, op.pfx, op.msg_len, none⟩, c1)
    else
      (.ok none, ⟨.payload, read1, op.pfx, op.msg_len, some buffer1⟩, c1)

/-- Source `RecvOperation::recv` (src/pipe.rs:431-464).  In step `Prefix` it fills
`prefix[read..]`; a first read of zero bytes returns `Ok(None)`; a full
prefix decodes the big-endian length, allocates the payload buffer and
falls through to the `Payload` stage within the same call.  In step `Done`
it returns the "already completed" error. -/
def RecvOperation.recvStep (op : RecvOperation) (c : Conn) :
    Except IoError (Option (List Nat)) × RecvOperation × Conn :=
  match op.step with
  | .sizePfx =>
    match recv_buffer c (op.pfx.length - op.read) with
    | (.error e, c1) => (.error e, op, c1)
    | (.ok dl, c1) =>
      let pfx1 := overwriteAt op.pfx op.read dl
      let read1 := op.read + dl.length
      if read1 = 0 then
        (.ok none, { op with pfx := pfx1 }, c1)
      else if read1 = op.pfx.length then
        let len := beU64 pfx1
        recvPayloadStep ⟨.payload, 0, pfx1, len, some (List.replicate len 0)⟩ c1
      else
        (.ok none, { op with pfx := pfx1, read := read1 }, c1)
  | .payload => recvPayloadStep op c
  | .done => (.error (other_io_error "recv operation already completed"), op, c)

/-- Driving a recv operation by repeated calls to `RecvOperation::recv`
(as successive readable events would): stop on a completed message or an
error, give up when the fuel runs out. -/
def runRecv : RecvOperation → Conn → Nat →
    Except IoError (Option (List Nat)) × RecvOperation × Conn
  | op, c, 0 => (.ok none, op, c)
  | op, c, fuel + 1 =>
    match op.recvStep c with
    | (.ok none, op1, c1) => runRecv op1 c1 fuel
    | r => r

/-- A schedule entry that always delivers at least one byte when both the
stream and the destination buffer are non-empty. -/
def ReadStep.positive : ReadStep → Bool
  | .give (_ + 1) => true
  | _ => false

/-- A schedule all of whose `try_read` behaviours deliver at least one
byte when data is available: an arbitrary partitioning of the stream into
non-empty partial reads. -/
def GoodSched (sched : List ReadStep) : Bool :=
  sched.all ReadStep.positive

/-- Source `Idle::recv` (src/pipe.rs:338-361): build a fresh `RecvOperation`, run
one `recv` call on it; a completed message emits the `MsgRcv` signal for
the owning socket and the pipe stays `Idle`; an incomplete read also stays
`Idle` — the local operation (with whatever bytes it consumed) is dropped;
an error runs `on_error`, yielding `Dead`. -/
def idleRecv (token : Nat) (c : Conn) :
    PipeState × Conn × List (Nat × PipeEvtSignal) :=
  match RecvOperation.new.recvStep c with
  | (.ok (some msg), _, c1) => (.idle token, c1, [(token, .msgRcv msg)])
  | (.ok none, _, c1) => (.idle token, c1, [])
  | (.error _, _, c1) => (.dead, c1, [])

/-- An operation applied to a pipe, together with the environment answers
(transport and event-loop registration results) it consumes:
`Pipe::open`, `Pipe::ready`, `Pipe::recv` (src/pipe.rs:62-72). -/
inductive PipeOp where
  | opOpen (regRes : Except IoError Unit)
  | opReady (writable readable : Bool)
      (writeRes : Except IoError (Option Nat))
      (readRes : Except IoError (List Nat))
      (regRes altRegRes : Except IoError Unit)
  | opRecv

/-- One transition of the pipe state machine of src/pipe.rs.  States not
overriding a `PipeState` trait method get the default (src/pipe.rs:79-97),
which moves to `Dead` for `open` and `ready` and for `recv`; `Initial`,
`HandshakeTx` and `HandshakeRx` override `recv` to keep their state, and
`Idle::ready` keeps its state (src/pipe.rs:333-336). -/
def pipeStep (s : PipeState) (c : Conn) (op : PipeOp) :
    PipeState × Conn × List (Nat × PipeEvtSignal) :=
  match s, op with
  | .initial d, .opOpen regRes =>
    match regRes with
    | .ok _ => (.handshakeTx d, c, [])
    | .error _ => (.dead, c, [])
  | .initial d, .opRecv => (.initial d, c, [])
  | .initial _, .opReady _ _ _ _ _ _ => (.dead, c, [])
  | .handshakeTx d, .opReady w _ writeRes _ regRes altRegRes =>
    let r := handshakeTxReady d w writeRes regRes altRegRes
    (r.1, c, r.2.2)
  | .handshakeTx d, .opRecv => (.handshakeTx d, c, [])
  | .handshakeTx _, .opOpen _ => (.dead, c, [])
  | .handshakeRx d, .opReady _ r _ readRes regRes altRegRes =>
    let t := handshakeRxReady d r readRes regRes altRegRes
    (t.1, c, t.2.2)
  | .handshakeRx d, .opRecv => (.handshakeRx d, c, [])
  | .handshakeRx _, .opOpen _ => (.dead, c, [])
  | .idle tok, .opReady _ _ _ _ _ _ => (.idle tok, c, [])
  | .idle tok, .opRecv => idleRecv tok c
  | .idle _, .opOpen _ => (.dead, c, [])
  | .dead, _ => (.dead, c, [])

/-- Running a sequence of operations on a pipe, collecting every emitted
event-loop signal. -/
def runPipe : PipeState → Conn → List PipeOp →
    PipeState × Conn × List (Nat × PipeEvtSignal)
  | s, c, [] => (s, c, [])
  | s, c, op :: rest =>
    let r := pipeStep s c op
    let r2 := runPipe r.1 r.2.1 rest
    (r2.1, r2.2.1, r.2.2 ++ r2.2.2)

/-- The mutable fields of `Pub` (src/protocol/pbu.rs:21-25) relevant to
routing: the tokens of the registered pipes (`pipes` keys) and the
distribution set (`dist`). -/
structure PubState where
  pipes : List Nat
  dist : List Nat
  deriving DecidableEq, Repr

/-- An effect performed by the `Pub` policy, in program order. -/
inductive PubAction where
  | sendNb (tok : Nat) (msg : List Nat)
  | notify (n : SocketNotify)
  | clearTimeout
  deriving DecidableEq, Repr

/-- Source `Pub::broadcast` (src/protocol/pbu.rs:48-54): for each token of the
distribution set, look the pipe up in `pipes` and, when present, enqueue
the reference-shared message on it with `send_nb`.  Pipe readiness is not
consulted here. -/
def Pub.broadcastActions (s : PubState) (msg : List Nat) : List PubAction :=
  (s.dist.filter (fun t => s.pipes.contains t)).map (fun t => .sendNb t msg)

/-- Source `Pub::send` (src/protocol/pbu.rs:83-87): broadcast, then notify
`MsgSent`, then clear the send-cancel timeout — in that order. -/
def Pub.sendTrace (s : PubState) (msg : List Nat) : List PubAction :=
  Pub.broadcastActions s msg ++ [.notify .msgSent, .clearTimeout]

/-- Source `Pub::recv` (src/protocol/pbu.rs:95-100): the state is untouched and
the only effect is the `MsgNotRecv` notification with an `Other`-kind
error.  The `Timeout` argument is ignored. -/
def Pub.recvTrace (s : PubState) : PubState × List PubAction :=
  (s, [.notify (.msgNotRecv (other_io_error "recv not supported by protocol"))])

/-- Source `EventLoopTimeout` (src/event_loop_msg.rs:143-150), restricted to the
four timer kinds the claims mention. -/
inductive EventLoopTimeout where
  | reconnect (tok : Nat) (addr : String)
  | rebind (tok : Nat) (addr : String)
  | cancelSend (sid : Nat)
  | cancelRecv (sid : Nat)
  deriving DecidableEq, Repr

/-- An effect performed by `SocketImpl`, in program order.  `notify` is
`send_evt` (src/socket_impl.rs:43-49); the reply enum is embedded as
`SocketNotify` (src/event_loop_msg.rs:160-171), whose variant names match
the `SocketEvt` values used by src/socket_impl.rs. -/
inductive EngineAction where
  | armTimer (t : EventLoopTimeout) (ms : Nat)
  | notify (n : SocketNotify)
  | closePipe (tok : Nat)
  | closeAcceptor (tok : Nat)
  | protoSend (msg : List Nat)
  | protoRecv
  deriving DecidableEq, Repr

/-- Source `SocketImpl::connect` (src/socket_impl.rs:51-63): run the transport
connect and pipe setup (outcome `connectResult`), then emit exactly one
reply — `Connected` on success, `NotConnected(e)` on failure.  Neither
variant carries the endpoint token. -/
def SocketImpl.connectActions (connectResult : Except IoError Unit) : List EngineAction :=
  match connectResult with
  | .ok _ => [.notify .connected]
  | .error e => [.notify (.notConnected e)]

/-- Source `SocketImpl::bind` (src/socket_impl.rs:103-112): run the transport
bind and acceptor setup (outcome `bindResult`), then emit exactly one
reply — `Bound` on success, `NotBound(e)` on failure. -/
def SocketImpl.bindActions (bindResult : Except IoError Unit) : List EngineAction :=
  match bindResult with
  | .ok _ => [.notify .bound]
  | .error e => [.notify (.notBound e)]

/-- Source `SocketImpl::on_pipe_error` (src/socket_impl.rs:73-84): if the
protocol held a pipe for the token it is removed and closed, and if that
pipe knew its origin address a `Reconnect` timer for the same token and
address is armed at 200 ms.  `removed` is `protocol.remove_pipe(token)`
projected to the pipe's optional address. -/
def SocketImpl.onPipeErrorActions (tok : Nat) (removed : Option (Option String)) :
    List EngineAction :=
  match removed with
  | none => []
  | some none => [.closePipe tok]
  | some (some addr) => [.closePipe tok, .armTimer (.reconnect tok addr) 200]

/-- Source `SocketImpl::on_acceptor_error` (src/socket_impl.rs:196-208): if an
acceptor was registered for the token it is removed and closed and a
`Rebind` timer for its address is armed at 200 ms. -/
def SocketImpl.onAcceptorErrorActions (tok : Nat) (removed : Option String) :
    List EngineAction :=
  match removed with
  | none => []
  | some addr => [.closeAcceptor tok, .armTimer (.rebind tok addr) 200]

/-- Source `SocketImpl::send` (src/socket_impl.rs:210-216): arm a `CancelSend`
timer at the constant 1000 ms and, when arming succeeded, hand the message
to the protocol policy.  The function has no access to any per-socket
timeout option (`SocketImpl` stores none). -/
def SocketImpl.sendActions (sid : Nat) (msg : List Nat) (armOk : Bool) : List EngineAction :=
  if armOk then [.armTimer (.cancelSend sid) 1000, .protoSend msg] else []

/-- Source `SocketImpl::recv` (src/socket_impl.rs:223-229): arm a `CancelRecv`
timer at the constant 1000 ms and, when arming succeeded, ask the protocol
policy to receive. -/
def SocketImpl.recvActions (sid : Nat) (armOk : Bool) : List EngineAction :=
  if armOk then [.armTimer (.cancelRecv sid) 1000, .protoRecv] else []

/-- The delays of all `CancelSend` timers armed in a trace. -/
def cancelSendDelays (l : List EngineAction) : List Nat :=
  l.filterMap (fun a => match a with
    | .armTimer (.cancelSend _) ms => some ms
    | _ => none)

/-- The delays of all `CancelRecv` timers armed in a trace. -/
def cancelRecvDelays (l : List EngineAction) : List Nat :=
  l.filterMap (fun a => match a with
    | .armTimer (.cancelRecv _) ms => some ms
    | _ => none)

/-- Restatement of claim C7's option clause in the spec's words: the
send/recv cancel timer delay is the per-socket timeout option's duration
when one is set and 1000 ms otherwise.  Declared only to compare the claim
with the source's `SocketImpl::send`/`recv`, which always arm 1000 ms. -/
def claimedCancelDelay (timeoutOption : Option Nat) : Nat :=
  match timeoutOption with
  | some d => d
  | none => 1000

/-- The reply notifications contained in a `Pub` action trace. -/
def pubReplies (l : List PubAction) : List SocketNotify :=
  l.filterMap (fun a => match a with
    | .notify n => some n
    | _ => none)

/-- The invariant tying an in-progress `RecvOperation` to the wire stream
`beBytes64 payload.length ++ payload` of which `consumed` bytes have been
taken: either the operation is still filling the length prefix, or it is
filling the payload buffer, and in both cases the bytes consumed so far
sit unchanged at the front of the corresponding buffer. -/
def RecvInv (payload : List Nat) (op : RecvOperation) (c : Conn) (consumed : Nat) : Prop :=
  c.data = (beBytes64 payload.length ++ payload).drop consumed ∧
  op.pfx.length = 8 ∧
  ((op.step = .sizePfx ∧ op.read = consumed ∧ consumed < 8 ∧
      op.pfx.take consumed = (beBytes64 payload.length).take consumed)
   ∨ (op.step = .payload ∧ op.msg_len = payload.length ∧ 8 ≤ consumed ∧
      consumed < 8 + payload.length ∧ op.read = consumed - 8 ∧
      ∃ b, op.buffer = some b ∧ b.length = payload.length ∧
        b.take (consumed - 8) = payload.take (consumed - 8)))

/-- Claim C9: `matches(s, t)` holds iff `peer(s) = t` and `peer(t) = s`;
`peer` is an involution, so `matches` is symmetric and every socket type is
compatible with exactly its peer (Pair and Bus being self-compatible); in
particular Sub is not compatible with Push. -/
theorem socketType_matches_spec :
    ∀ s t : SocketType,
      (SocketType.matches s t = true ↔ s.peer = t ∧ t.peer = s)
      ∧ s.peer.peer = s
      ∧ (SocketType.matches s t = SocketType.matches t s)
      ∧ (SocketType.matches s t = true ↔ t = s.peer)
      ∧ SocketType.matches .pair .pair = true
      ∧ SocketType.matches .bus .bus = true
      ∧ SocketType.matches .sub .push = false := by
  decide

/-- Claim C10: the `Dead` pipe state is absorbing — every sequence of
open/ready/recv operations run from `Dead` ends in `Dead` and emits no
event-loop signal. -/
theorem dead_state_absorbing :
    ∀ (ops : List PipeOp) (c : Conn),
      (runPipe .dead c ops).1 = .dead ∧ (runPipe .dead c ops).2.2 = [] := by
  intro ops
  induction ops with
  | nil => intro c; exact ⟨rfl, rfl⟩
  | cons op rest ih =>
    intro c
    cases op <;> simpa [runPipe, pipeStep] using ih c

/-- Claim C5 (evaluation): for every Connect and every Bind command,
`SocketImpl` emits exactly one reply — `Connected`/`Bound` on success and
`NotConnected`/`NotBound` with the error on failure — synchronously after
the transport call returns.  The success replies are the token-less
`SocketNotify` constructors: no endpoint token is carried, although
src/socket_facade.rs:75 and :95 destructure `Connected(t)` / `Bound(t)`. -/
theorem connect_bind_reply_exactly_once_tokenless :
    ∀ res : Except IoError Unit,
      SocketImpl.connectActions res
          = [EngineAction.notify (match res with
              | .ok _ => SocketNotify.connected
              | .error e => SocketNotify.notConnected e)]
      ∧ SocketImpl.bindActions res
          = [EngineAction.notify (match res with
              | .ok _ => SocketNotify.bound
              | .error e => SocketNotify.notBound e)] := by
  intro res
  cases res <;> exact ⟨rfl, rfl⟩

/-- Claim C8: a `RecvMsg` command on a Pub socket always replies
`MsgNotRecv` with an `Other`-kind error whose message is
"recv not supported by protocol", immediately, leaving the pipe map and
the distribution set unchanged. -/
theorem pub_recv_not_supported :
    ∀ s : PubState,
      Pub.recvTrace s
        = (s, [PubAction.notify (SocketNotify.msgNotRecv
            ⟨IoErrorKind.other, "recv not supported by protocol"⟩)]) := by
  intro s
  rfl

/-- Claim C7 (amended): a pipe dying with a known origin address arms a
`Reconnect` timer for the same token and address at 200 ms, a failed
acceptor arms a `Rebind` timer at 200 ms, and every `SendMsg` (resp.
`RecvMsg`) command arms a `CancelSend` (resp. `CancelRecv`) timer at the
constant 1000 ms — the per-socket timeout options are never consulted. -/
theorem timer_constants_thm :
    ∀ (sid tok : Nat) (addr : String) (msg : List Nat),
      cancelSendDelays (SocketImpl.sendActions sid msg true) = [1000]
      ∧ cancelRecvDelays (SocketImpl.recvActions sid true) = [1000]
      ∧ SocketImpl.onPipeErrorActions tok (some (some addr))
          = [.closePipe tok, .armTimer (.reconnect tok addr) 200]
      ∧ SocketImpl.onPipeErrorActions tok (some none) = [.closePipe tok]
      ∧ SocketImpl.onPipeErrorActions tok none = []
      ∧ SocketImpl.onAcceptorErrorActions tok (some addr)
          = [.closeAcceptor tok, .armTimer (.rebind tok addr) 200] := by
  intro sid tok addr msg
  exact ⟨rfl, rfl, rfl, rfl, rfl, rfl⟩

/-- Claim C7 (counterexample): `SocketImpl::send`/`recv` arm the cancel
timers at the constant 1000 ms, while the claim demands the per-socket
timeout option's duration (here 500 ms) when one is set. -/
theorem cancel_timer_ignores_option_cex :
    cancelSendDelays (SocketImpl.sendActions 3 [65] true) = [1000]
    ∧ cancelRecvDelays (SocketImpl.recvActions 3 true) = [1000]
    ∧ claimedCancelDelay (some 500) ≠ 1000 := by
  decide

/-- Claim C1 (evaluation): in `HandshakeRx`, a readable event delivering
exactly the expected peer frame (peer protocol id 33 = Sub) moves the pipe
to `Idle` while emitting no event-loop signal at all — in particular no
"pipe opened" notification; any other 8-byte delivery fails
`check_received_handshake` with an `InvalidData` error and the pipe dies. -/
theorem handshakeRx_no_opened_signal :
    handshakeRxReady ⟨7, 16, 33⟩ true (.ok [0, 83, 80, 0, 0, 33, 0, 0]) (.ok ()) (.ok ())
        = (.idle 7, [.tryRead8], [])
    ∧ handshakeRxReady ⟨7, 16, 33⟩ true (.ok [0, 83, 80, 0, 0, 16, 0, 0]) (.ok ()) (.ok ())
        = (.dead, [.tryRead8], [])
    ∧ read_handshake ⟨7, 16, 33⟩ (.ok [0, 83, 80, 0, 0, 16, 0, 0])
        = .error ⟨IoErrorKind.invalidData, "received bad handshake"⟩
    ∧ handshakeFrame 33 = [0, 83, 80, 0, 0, 33, 0, 0] := by
  exact ⟨rfl, rfl, rfl, rfl⟩

/-- Claim C4 (evaluation): an 11-byte wire stream holding one complete
message (length prefix 3, payload `[10, 20, 30]`) is fed to `Idle::recv`
with a partial first read of 4 bytes: the pipe returns to the bare `Idle`
state (which stores no receive operation), emitting nothing, with the 4
consumed bytes discarded; a second `recv` then misparses the remaining 7
bytes as the start of a fresh length prefix and the message is lost. -/
theorem idle_recv_drops_partial_operation :
    idleRecv 5 ⟨beBytes64 3 ++ [10, 20, 30], [.give 4]⟩
        = (.idle 5, ⟨[0, 0, 0, 3, 10, 20, 30], []⟩, [])
    ∧ idleRecv 5 ⟨[0, 0, 0, 3, 10, 20, 30], [.give 8, .give 8]⟩
        = (.idle 5, ⟨[], [.give 8]⟩, [])
    ∧ (beBytes64 3 ++ [10, 20, 30]).length = 11 := by
  decide

/-- Claim C2: on a writable event in `HandshakeTx` the pipe hands the
transport exactly the 8-byte frame `[0x00, 'S', 'P', 0x00, hi, lo, 0x00,
0x00]` with its own protocol id big-endian, and (assuming the follow-up
readable registration succeeds) transitions to `HandshakeRx` iff the
transport reports exactly 8 bytes written; any other write outcome kills
the pipe. -/
theorem handshakeTx_writes_frame_and_transitions :
    ∀ (d : PipeData) (writeRes : Except IoError (Option Nat))
      (regReadRes regWriteRes : Except IoError Unit),
      regReadRes = .ok () →
      (handshakeTxReady d true writeRes regReadRes regWriteRes).2.1
          = [.tryWrite (handshakeFrame d.protocolId)]
      ∧ handshakeFrame d.protocolId
          = [0, 83, 80, 0, d.protocolId / 256 % 256, d.protocolId % 256, 0, 0]
      ∧ ((handshakeTxReady d true writeRes regReadRes regWriteRes).1
          = .handshakeRx d ↔ writeRes = .ok (some 8))
      ∧ (writeRes ≠ .ok (some 8) →
          (handshakeTxReady d true writeRes regReadRes regWriteRes).1 = .dead) := by
  intro d writeRes regReadRes regWriteRes hreg
  subst hreg
  rcases writeRes with e | w
  · exact ⟨rfl, rfl, by simp [handshakeTxReady], fun _ => rfl⟩
  · rcases w with _ | n
    · exact ⟨rfl, rfl, by simp [handshakeTxReady, check_sent_handshake], fun _ => rfl⟩
    · by_cases hn : n = 8
      · subst hn
        exact ⟨rfl, rfl, by simp [handshakeTxReady, check_sent_handshake],
          fun hne => absurd rfl hne⟩
      · refine ⟨?_, rfl, ?_, fun _ => ?_⟩
        · simp [handshakeTxReady, check_sent_handshake, hn]
        · simp [handshakeTxReady, check_sent_handshake, hn]
        · simp [handshakeTxReady, check_sent_handshake, hn]

/-- Claim C2 witness: the theorem applied at a concrete pipe
(token 1, protocol id 16 = Pair) with a successful atomic 8-byte write. -/
theorem handshakeTx_writes_frame_and_transitions_witness :
    (handshakeTxReady ⟨1, 16, 16⟩ true (.ok (some 8)) (.ok ()) (.ok ())).2.1
        = [.tryWrite (handshakeFrame 16)]
    ∧ handshakeFrame 16 = [0, 83, 80, 0, 16 / 256 % 256, 16 % 256, 0, 0]
    ∧ ((handshakeTxReady ⟨1, 16, 16⟩ true (.ok (some 8)) (.ok ()) (.ok ())).1
        = .handshakeRx ⟨1, 16, 16⟩ ↔
          (Except.ok (some 8) : Except IoError (Option Nat)) = .ok (some 8))
    ∧ ((Except.ok (some 8) : Except IoError (Option Nat)) ≠ .ok (some 8) →
        (handshakeTxReady ⟨1, 16, 16⟩ true (.ok (some 8)) (.ok ()) (.ok ())).1 = .dead) :=
  handshakeTx_writes_frame_and_transitions ⟨1, 16, 16⟩ (.ok (some 8)) (.ok ()) (.ok ()) rfl

theorem beBytes64_length (n : Nat) : (beBytes64 n).length = 8 := rfl

theorem beU64_beBytes64 (n : Nat) (h : n < 2 ^ 64) : beU64 (beBytes64 n) = n := by
  simp only [beU64, beBytes64, List.foldl_cons, List.foldl_nil]
  omega

theorem overwriteAt_length (dst src : List Nat) (i : Nat)
    (h : i + src.length ≤ dst.length) :
    (overwriteAt dst i src).length = dst.length := by
  simp only [overwriteAt, List.length_append, List.length_take, List.length_drop]
  omega

theorem overwriteAt_take (dst src : List Nat) (i : Nat) (h : i ≤ dst.length) :
    (overwriteAt dst i src).take (i + src.length) = dst.take i ++ src := by
  have h1 : (dst.take i ++ src).length = i + src.length := by
    simp only [List.length_append, List.length_take]
    omega
  calc (overwriteAt dst i src).take (i + src.length)
      = ((dst.take i ++ src) ++ dst.drop (i + src.length)).take (i + src.length) := by
        simp [overwriteAt]
    _ = dst.take i ++ src := by
        rw [← h1, List.take_left]

theorem goodSched_drop (l : List ReadStep) (e : Nat) (h : GoodSched l = true) :
    GoodSched (l.drop e) = true := by
  simp only [GoodSched, List.all_eq_true] at *
  intro s hs
  exact h s (List.mem_of_mem_drop hs)

theorem positive_give (s : ReadStep) (h : ReadStep.positive s = true) :
    ∃ k, s = .give (k + 1) := by
  cases s with
  | block => simp [ReadStep.positive] at h
  | fail e => simp [ReadStep.positive] at h
  | give k =>
    cases k with
    | zero => simp [ReadStep.positive] at h
    | succ k => exact ⟨k, rfl⟩

theorem recvStep_progress (payload : List Nat) (op : RecvOperation) (c : Conn)
    (consumed : Nat)
    (hN : payload.length < 2 ^ 64)
    (hinv : RecvInv payload op c consumed)
    (hgood : GoodSched c.sched = true)
    (hlen : 8 + payload.length - consumed ≤ c.sched.length) :
    (op.recvStep c).1 = .ok (some payload)
    ∨ ∃ op1 c1 consumed1 e,
        op.recvStep c = (.ok none, op1, c1)
        ∧ RecvInv payload op1 c1 consumed1
        ∧ consumed < consumed1
        ∧ c1.sched = c.sched.drop e
        ∧ e ≤ consumed1 - consumed := by
  obtain ⟨st, rd, pfx, ml, buf⟩ := op
  obtain ⟨data, sched⟩ := c
  obtain ⟨hdata0, hpfxlen0, hcase⟩ := hinv
  have hdata : data = (beBytes64 payload.length ++ payload).drop consumed := hdata0
  have hpfxlen : pfx.length = 8 := hpfxlen0
  have hSlen : (beBytes64 payload.length ++ payload).length = 8 + payload.length := by
    simp [List.length_append, beBytes64_length]
  have hcons_lt : consumed < 8 + payload.length := by
    rcases hcase with ⟨_, _, h, _⟩ | ⟨_, _, _, h, _⟩ <;> omega
  have hdlen : data.length = 8 + payload.length - consumed := by
    rw [hdata, List.length_drop, hSlen]
  have hSdrop8 : (beBytes64 payload.length ++ payload).drop 8 = payload := by
    rw [← beBytes64_length payload.length]
    exact List.drop_left _ _
  cases sched with
  | nil =>
    exfalso
    simp only [List.length_nil] at hlen
    omega
  | cons s0 rest =>
  have hgood0 : ReadStep.positive s0 = true ∧ GoodSched rest = true := by
    simpa [GoodSched] using hgood
  obtain ⟨k, hk⟩ := positive_give s0 hgood0.1
  subst hk
  have hlen' : 8 + payload.length - consumed ≤ rest.length + 1 := by
    simpa using hlen
  rcases hcase with ⟨hstep0, hread0, hlt8, htake0⟩ | ⟨hstep0, hmlen0, h8le, hlt, hread0, b, hbuf0, hblen, hbtake⟩
  · -- Prefix case
    have hstep : st = .sizePfx := hstep0
    have hread : rd = consumed := hread0
    have htake : pfx.take consumed = (beBytes64 payload.length).take consumed := htake0
    subst hstep
    rw [← hread] at hdata hdlen hlt8 htake hcons_lt hlen' ⊢
    have hbuflen : pfx.length - rd = 8 - rd := by rw [hpfxlen]
    have hrb :
        recv_buffer ⟨data, .give (k + 1) :: rest⟩ (pfx.length - rd)
          = (.ok (data.take (min (k + 1) (min (8 - rd) data.length))),
             ⟨data.drop (min (k + 1) (min (8 - rd) data.length)), rest⟩) := by
      rw [hbuflen]
      have hpos : 0 < 8 - rd := by omega
      simp [recv_buffer, Conn.tryRead, hpos]
    set n := min (k + 1) (min (8 - rd) data.length) with hn
    have hn1 : 1 ≤ n := by omega
    have hn_le : n ≤ 8 - rd := by omega
    have hn_led : n ≤ data.length := by omega
    have hdl_len : (data.take n).length = n := by
      rw [List.length_take]; omega
    have htake1 : (overwriteAt pfx rd (data.take n)).take (rd + n)
        = (beBytes64 payload.length).take (rd + n) := by
      have h2 := overwriteAt_take pfx (data.take n) rd (by omega)
      rw [hdl_len] at h2
      rw [h2, htake, hdata]
      have h3 : (beBytes64 payload.length).take rd
          = (beBytes64 payload.length ++ payload).take rd := by
        rw [List.take_append_of_le_length]
        rw [beBytes64_length]; omega
      rw [h3, ← List.take_add]
      rw [List.take_append_of_le_length]
      rw [beBytes64_length]; omega
    have hpfx1_len : (overwriteAt pfx rd (data.take n)).length = 8 := by
      rw [overwriteAt_length pfx (data.take n) rd (by rw [hdl_len, hpfxlen]; omega), hpfxlen]
    by_cases hfull : rd + n = 8
    · -- the prefix completes; the payload stage runs within the same call
      have hpfx_full : overwriteAt pfx rd (data.take n) = beBytes64 payload.length := by
        calc overwriteAt pfx rd (data.take n)
            = (overwriteAt pfx rd (data.take n)).take 8 := by
              rw [← hpfx1_len, List.take_length]
          _ = (beBytes64 payload.length).take 8 := by rw [← hfull]; exact htake1
          _ = beBytes64 payload.length := by
              rw [← beBytes64_length payload.length, List.take_length]
      have hdata8 : data.drop n = payload := by
        rw [hdata, List.drop_drop, hfull, hSdrop8]
      have hmain : RecvOperation.recvStep ⟨.sizePfx, rd, pfx, ml, buf⟩
            ⟨data, .give (k + 1) :: rest⟩
          = recvPayloadStep ⟨.payload, 0, beBytes64 payload.length, payload.length,
              some (List.replicate payload.length 0)⟩ ⟨payload, rest⟩ := by
        simp only [RecvOperation.recvStep, hrb, hdl_len]
        rw [if_neg (by omega : ¬ (rd + n = 0))]
        rw [if_pos (by rw [hpfxlen]; exact hfull)]
        rw [hpfx_full, beU64_beBytes64 _ hN, hdata8]
      by_cases hN0 : payload.length = 0
      · -- empty payload: the message completes in this very call
        left
        have hpay : payload = [] := List.length_eq_zero.mp hN0
        subst hpay
        rw [hmain]
        rfl
      · -- non-empty payload: a second read happens within the same call
        have hrest_ne : rest ≠ [] := by
          intro h
          subst h
          simp only [List.length_nil] at hlen'
          omega
        cases rest with
        | nil => exact absurd rfl hrest_ne
        | cons s1 rest2 =>
        have hgood1 : ReadStep.positive s1 = true ∧ GoodSched rest2 = true := by
          simpa [GoodSched] using hgood0.2
        obtain ⟨k2, hk2⟩ := positive_give s1 hgood1.1
        subst hk2
        have hrb2 : recv_buffer ⟨payload, .give (k2 + 1) :: rest2⟩
              ((List.replicate payload.length (0 : Nat)).length - 0)
            = (.ok (payload.take (min (k2 + 1) payload.length)),
               ⟨payload.drop (min (k2 + 1) payload.length), rest2⟩) := by
          have hb : (List.replicate payload.length (0 : Nat)).length - 0 = payload.length := by
            simp
          rw [hb]
          have hpos2 : 0 < payload.length := by omega
          simp [recv_buffer, Conn.tryRead, hpos2]
        set n2 := min (k2 + 1) payload.length with hn2
        have hn2_1 : 1 ≤ n2 := by omega
        have hn2_le : n2 ≤ payload.length := by omega
        have hdl2_len : (payload.take n2).length = n2 := by
          rw [List.length_take]; omega
        by_cases hfull2 : n2 = payload.length
        · -- the whole payload arrives at once: message completed
          left
          rw [hmain]
          simp only [recvPayloadStep, Option.getD_some, hrb2, hdl2_len]
          rw [if_pos (by omega : 0 + n2 = payload.length)]
          have hbuf_full : overwriteAt (List.replicate payload.length 0) 0 (payload.take n2)
              = payload := by
            simp only [overwriteAt, List.take_zero, List.nil_append, Nat.zero_add, hdl2_len]
            rw [hfull2, List.take_length]
            simp
          rw [hbuf_full]
        · -- only part of the payload arrives: invariant re-established
          right
          refine ⟨⟨.payload, 0 + n2, beBytes64 payload.length, payload.length,
              some (overwriteAt (List.replicate payload.length 0) 0 (payload.take n2))⟩,
            ⟨payload.drop n2, rest2⟩, 8 + n2, 2, ?_, ?_, by omega, rfl, by omega⟩
          · rw [hmain]
            simp only [recvPayloadStep, Option.getD_some, hrb2, hdl2_len]
            rw [if_neg (by omega : ¬ (0 + n2 = payload.length))]
          · refine ⟨?_, beBytes64_length payload.length,
              Or.inr ⟨rfl, rfl, by omega, by omega,
                (by show 0 + n2 = 8 + n2 - 8; omega),
                ⟨overwriteAt (List.replicate payload.length 0) 0 (payload.take n2), rfl, ?_, ?_⟩⟩⟩
            · show payload.drop n2 = (beBytes64 payload.length ++ payload).drop (8 + n2)
              rw [← List.drop_drop, hSdrop8]
            · rw [overwriteAt_length (List.replicate payload.length 0) (payload.take n2) 0
                (by simp only [Nat.zero_add, hdl2_len, List.length_replicate]; exact hn2_le)]
              simp
            · have h6 : 8 + n2 - 8 = n2 := by omega
              rw [h6]
              simp only [overwriteAt, List.take_zero, List.nil_append, Nat.zero_add, hdl2_len]
              exact List.take_left' hdl2_len
    · -- the prefix is still incomplete after this read
      right
      refine ⟨⟨.sizePfx, rd + n, overwriteAt pfx rd (data.take n), ml, buf⟩,
        ⟨data.drop n, rest⟩, rd + n, 1, ?_, ?_, by omega, rfl, by omega⟩
      · simp only [RecvOperation.recvStep, hrb, hdl_len]
        rw [if_neg (by omega : ¬ (rd + n = 0))]
        rw [if_neg (by rw [hpfxlen]; exact hfull)]
      · refine ⟨?_, hpfx1_len, Or.inl ⟨rfl, rfl, by omega, htake1⟩⟩
        show data.drop n = (beBytes64 payload.length ++ payload).drop (rd + n)
        rw [hdata, List.drop_drop]
  · -- Payload case
    have hstep : st = .payload := hstep0
    have hmlv : ml = payload.length := hmlen0
    have hread : rd = consumed - 8 := hread0
    have hbufv : buf = some b := hbuf0
    subst hstep
    subst hmlv
    subst hbufv
    have hconsumed : consumed = 8 + rd := by omega
    subst hconsumed
    have hrd_lt : rd < payload.length := by omega
    have hbtake_rd : b.take rd = payload.take rd := by
      have h7 : 8 + rd - 8 = rd := by omega
      rw [h7] at hbtake
      exact hbtake
    have hdataB : data = payload.drop rd := by
      rw [hdata, ← List.drop_drop, hSdrop8]
    have hdlenB : data.length = payload.length - rd := by
      rw [hdataB, List.length_drop]
    have hblen' : b.length - rd = payload.length - rd := by rw [hblen]
    have hrbB : recv_buffer ⟨data, .give (k + 1) :: rest⟩ (b.length - rd)
        = (.ok (data.take (min (k + 1) (min (payload.length - rd) data.length))),
           ⟨data.drop (min (k + 1) (min (payload.length - rd) data.length)), rest⟩) := by
      rw [hblen']
      have hposB : 0 < payload.length - rd := by omega
      simp [recv_buffer, Conn.tryRead, hposB]
    set n := min (k + 1) (min (payload.length - rd) data.length) with hn
    have hn1 : 1 ≤ n := by omega
    have hn_le : n ≤ payload.length - rd := by omega
    have hn_led : n ≤ data.length := by omega
    have hdl_len : (data.take n).length = n := by
      rw [List.length_take]; omega
    have hb1_take : (overwriteAt b rd (data.take n)).take (rd + n)
        = payload.take (rd + n) := by
      have h2 := overwriteAt_take b (data.take n) rd (by omega)
      rw [hdl_len] at h2
      rw [h2, hbtake_rd, hdataB, ← List.take_add]
    have hb1_len : (overwriteAt b rd (data.take n)).length = payload.length := by
      rw [overwriteAt_length b (data.take n) rd (by rw [hdl_len, hblen]; omega), hblen]
    by_cases hfullB : rd + n = payload.length
    · -- the payload completes: the assembled buffer is the payload
      left
      have hb1_full : overwriteAt b rd (data.take n) = payload := by
        calc overwriteAt b rd (data.take n)
            = (overwriteAt b rd (data.take n)).take payload.length := by
              rw [← hb1_len, List.take_length]
          _ = payload.take payload.length := by rw [← hfullB]; exact hb1_take
          _ = payload := List.take_length payload
      simp only [RecvOperation.recvStep, recvPayloadStep, Option.getD_some, hrbB, hdl_len]
      rw [if_pos hfullB, hb1_full]
    · -- the payload is still incomplete after this read
      right
      refine ⟨⟨.payload, rd + n, pfx, payload.length,
          some (overwriteAt b rd (data.take n))⟩,
        ⟨data.drop n, rest⟩, 8 + rd + n, 1, ?_, ?_, by omega, rfl, by omega⟩
      · simp only [RecvOperation.recvStep, recvPayloadStep, Option.getD_some, hrbB, hdl_len]
        rw [if_neg hfullB]
      · refine ⟨?_, hpfxlen,
          Or.inr ⟨rfl, rfl, by omega, by omega,
            (by show rd + n = 8 + rd + n - 8; omega),
            ⟨overwriteAt b rd (data.take n), rfl, hb1_len, ?_⟩⟩⟩
        · show data.drop n = (beBytes64 payload.length ++ payload).drop (8 + rd + n)
          rw [hdata, List.drop_drop]
        · have h8 : 8 + rd + n - 8 = rd + n := by omega
          rw [h8]
          exact hb1_take

theorem runRecv_completes (payload : List Nat) (hN : payload.length < 2 ^ 64) :
    ∀ (fuel : Nat) (op : RecvOperation) (c : Conn) (consumed : Nat),
      RecvInv payload op c consumed →
      GoodSched c.sched = true →
      8 + payload.length - consumed ≤ c.sched.length →
      8 + payload.length - consumed ≤ fuel →
      (runRecv op c fuel).1 = .ok (some payload) := by
  intro fuel
  induction fuel with
  | zero =>
    intro op c consumed hinv hgood hlen hfuel
    exfalso
    obtain ⟨_, _, hcase⟩ := hinv
    rcases hcase with ⟨_, _, h, _⟩ | ⟨_, _, _, h, _⟩ <;> omega
  | succ fuel ih =>
    intro op c consumed hinv hgood hlen hfuel
    rcases recvStep_progress payload op c consumed hN hinv hgood hlen with hdone |
      ⟨op1, c1, consumed1, e, heq, hinv1, hlt, hsched1, he⟩
    · cases hres : op.recvStep c with
      | mk res opc =>
        obtain ⟨op2, c2⟩ := opc
        rw [hres] at hdone
        have hres2 : res = .ok (some payload) := hdone
        subst hres2
        simp [runRecv, hres]
    · have hgood1 : GoodSched c1.sched = true := by
        rw [hsched1]
        exact goodSched_drop _ _ hgood
      have hlen1 : 8 + payload.length - consumed1 ≤ c1.sched.length := by
        rw [hsched1, List.length_drop]
        omega
      have hfuel1 : 8 + payload.length - consumed1 ≤ fuel := by omega
      have hun : runRecv op c (fuel + 1) = runRecv op1 c1 fuel := by
        simp [runRecv, heq]
      rw [hun]
      exact ih op1 c1 consumed1 hinv1 hgood1 hlen1 hfuel1

/-- Claim C3: for every payload, if the stream carries the 8-byte
big-endian length prefix followed by exactly the payload bytes, then under
any partitioning of the stream into non-empty partial reads the recv
operation completes with exactly the payload as message body (within
`8 + N` readable events); a first read of zero bytes yields `Ok(None)` —
no message, no error; and calling `recv` once the operation is `Done`
returns the "recv operation already completed" error. -/
theorem recvOperation_framing_correct :
    (∀ (payload : List Nat) (sched : List ReadStep),
        payload.length < 2 ^ 64 →
        GoodSched sched = true →
        8 + payload.length ≤ sched.length →
        (runRecv RecvOperation.new ⟨beBytes64 payload.length ++ payload, sched⟩
            (8 + payload.length)).1 = .ok (some payload))
    ∧ (∀ (data : List Nat) (rest : List ReadStep),
        (RecvOperation.new.recvStep ⟨data, .block :: rest⟩).1 = .ok none)
    ∧ (∀ (op : RecvOperation) (c : Conn), op.step = .done →
        (op.recvStep c).1
          = .error ⟨IoErrorKind.other, "recv operation already completed"⟩) := by
  refine ⟨?_, ?_, ?_⟩
  · intro payload sched hN hgood hlen
    refine runRecv_completes payload hN (8 + payload.length) RecvOperation.new
      ⟨beBytes64 payload.length ++ payload, sched⟩ 0 ?_ hgood (by simpa using hlen)
      (by omega)
    exact ⟨rfl, rfl, Or.inl ⟨rfl, rfl, by omega, rfl⟩⟩
  · intro data rest
    rfl
  · intro op c hstep
    obtain ⟨st, rd, pfx, ml, buf⟩ := op
    have hst : st = .done := hstep
    subst hst
    rfl

/-- Claim C3 witness: a 2-byte payload `[9, 9]` delivered one byte per
readable event (schedule of ten 1-byte reads) is reassembled exactly. -/
theorem recvOperation_framing_correct_witness :
    (runRecv RecvOperation.new
        ⟨beBytes64 2 ++ [9, 9], List.replicate 10 (.give 1)⟩ 10).1
      = .ok (some [9, 9])
    ∧ (RecvOperation.new.recvStep ⟨[1, 2, 3], .block :: []⟩).1 = .ok none :=
  ⟨recvOperation_framing_correct.1 [9, 9] (List.replicate 10 (.give 1))
      (by decide) (by decide) (by decide),
   recvOperation_framing_correct.2.1 [1, 2, 3] []⟩

theorem pubReplies_map_sendNb (msg : List Nat) :
    ∀ l : List Nat, pubReplies (l.map (fun t => PubAction.sendNb t msg)) = [] := by
  intro l
  simp [pubReplies, List.filterMap_map]

/-- Claim C6 (amended): a `SendMsg` on a Pub socket produces exactly one
reply and it is `MsgSent`; before the reply the message is enqueued with
`send_nb` on every distribution-set token that has a pipe (and on nothing
else); the send-cancel timer is cleared immediately after the reply. -/
theorem pub_send_exactly_one_reply_order :
    ∀ (s : PubState) (msg : List Nat),
      pubReplies (Pub.sendTrace s msg) = [SocketNotify.msgSent]
      ∧ (∀ t, t ∈ s.dist → t ∈ s.pipes →
          PubAction.sendNb t msg ∈ Pub.broadcastActions s msg)
      ∧ (∀ a ∈ Pub.broadcastActions s msg, ∃ t ∈ s.dist, a = PubAction.sendNb t msg)
      ∧ Pub.sendTrace s msg
          = Pub.broadcastActions s msg ++ [.notify .msgSent, .clearTimeout] := by
  intro s msg
  refine ⟨?_, ?_, ?_, rfl⟩
  · have h1 := pubReplies_map_sendNb msg (s.dist.filter (fun t => s.pipes.contains t))
    simp only [Pub.sendTrace, Pub.broadcastActions, pubReplies, List.filterMap_append] at *
    rw [h1]
    rfl
  · intro t hd hp
    simp only [Pub.broadcastActions, List.mem_map, List.mem_filter]
    exact ⟨t, ⟨hd, List.elem_eq_true_of_mem hp⟩, rfl⟩
  · intro a ha
    simp only [Pub.broadcastActions, List.mem_map, List.mem_filter] at ha
    obtain ⟨t, ⟨hd, _⟩, rfl⟩ := ha
    exact ⟨t, hd, rfl⟩

/-- Claim C6 witness: the theorem applied to a Pub socket with one opened
pipe (token 4) sending `[65]`. -/
theorem pub_send_exactly_one_reply_order_witness :
    pubReplies (Pub.sendTrace ⟨[4], [4]⟩ [65]) = [SocketNotify.msgSent]
    ∧ PubAction.sendNb 4 [65] ∈ Pub.broadcastActions ⟨[4], [4]⟩ [65] :=
  ⟨(pub_send_exactly_one_reply_order ⟨[4], [4]⟩ [65]).1,
   (pub_send_exactly_one_reply_order ⟨[4], [4]⟩ [65]).2.1 4 (by decide) (by decide)⟩

/-- Claim C6 (counterexample): in `Pub::send` the timeout is cleared
*after* the `MsgSent` reply is emitted, not before — in the concrete trace
for one pipe the `clearTimeout` action does not precede the reply. -/
theorem pub_send_clears_timer_after_reply_cex :
    Pub.sendTrace ⟨[4], [4]⟩ [65]
        = [.sendNb 4 [65], .notify .msgSent, .clearTimeout]
    ∧ ¬ ((Pub.sendTrace ⟨[4], [4]⟩ [65]).indexOf PubAction.clearTimeout
        < (Pub.sendTrace ⟨[4], [4]⟩ [65]).indexOf (PubAction.notify .msgSent)) := by
  exact ⟨rfl, by decide⟩
